import Mathlib

/-!
A shallow embedding of DeskAI's command-routing core: the command dispatcher
with its handler registry (`core/dispatcher.py`) and the skill loader
(`core/skill_loader.py`), together with theorems checking the specification's
claims about them.

Python strings are sequences of Unicode code points; they are modelled as
`List Char`.  Python dataclasses become structures, a raised exception becomes
an explicit alternative of `HandlerStep` / `LoadBehavior`, and Python `None`
becomes `Option.none` (or the `PyVal.pynone` value where a handler returns it).
-/

namespace DeskAI

/-- Python `str`, modelled as the list of its code points. -/
abbrev Str := List Char

/-- `str.lower()`; `Char.toLower` is the ASCII letter mapping, which agrees
with Python on the ASCII patterns and queries in scope. -/
def pyLower (s : Str) : Str := s.map Char.toLower

/-- The characters `str.strip()` removes (Python whitespace, ASCII range). -/
def pyIsSpace (c : Char) : Bool :=
  c == ' ' || c == '\t' || c == '\n' || c == '\r' || c == '\x0b' || c == '\x0c'

/-- `str.strip()`: drop leading and trailing whitespace. -/
def pyStrip (s : Str) : Str :=
  ((s.dropWhile pyIsSpace).reverse.dropWhile pyIsSpace).reverse

/-- Does `hay` start with `needle`? -/
def startsWith : Str → Str → Bool
  | [], _ => true
  | _ :: _, [] => false
  | a :: as, b :: bs => a == b && startsWith as bs

/-- Does `s` end with `post`? -/
def endsWith (s post : Str) : Bool := startsWith post.reverse s.reverse

/-- Python `needle in hay` on strings: substring containment (true at the
empty needle, as in Python). -/
def pyIn : Str → Str → Bool
  | needle, [] => needle == []
  | needle, c :: rest => startsWith needle (c :: rest) || pyIn needle rest

/-- Model of the response dictionaries flowing through the dispatcher: the
keys the core reads or writes (`response`, `error`, `action`, `data`). -/
structure ResponseDict where
  response : Option Str := Option.none
  error : Bool := false
  action : Option Str := Option.none
  data : Option Str := Option.none
  deriving DecidableEq

/-- A value a handler can return: a `str`, a `dict`, Python `None`, or any
other object together with its `str(...)` rendering. -/
inductive PyVal where
  | str (s : Str)
  | dict (d : ResponseDict)
  | pynone
  | other (rendering : Str)
  deriving DecidableEq

/-- One invocation of a handler: a normal return, or a raised exception
carrying `str(e)`. -/
inductive HandlerStep where
  | ret (v : PyVal)
  | exn (msg : Str)
  deriving DecidableEq

/-- The `CommandHandler` dataclass (dispatcher.py, lines 10-16). -/
structure CommandHandler (Ctx : Type) where
  patterns : List Str
  handler : Ctx → Str → HandlerStep
  priority : Int := 0
  exact_match : Bool := false

/-- The per-pattern test of the scan loop (dispatcher.py, lines 90-98):
equality of the normalized query in exact-match mode, substring containment
of the pattern otherwise. -/
def patternHit (exact : Bool) (queryLower p : Str) : Bool :=
  if exact then queryLower == p else pyIn p queryLower

/-- The first pattern of a registration that matches; the inner loop breaks
at it (dispatcher.py, lines 90-98). -/
def detectedPattern {Ctx : Type} (h : CommandHandler Ctx) (queryLower : Str) : Option Str :=
  h.patterns.find? (patternHit h.exact_match queryLower)

/-- The `matched` flag after the inner pattern loop. -/
def handlerMatches {Ctx : Type} (h : CommandHandler Ctx) (queryLower : Str) : Bool :=
  (detectedPattern h queryLower).isSome

/-- Result normalization (dispatcher.py, lines 104-110): a bare string is
wrapped, a dict passes through unchanged, anything else is rendered with
`str(...)` (so Python `None` becomes the text "None"). -/
def normalizeResult : PyVal → ResponseDict
  | .str s => { response := some s }
  | .dict d => d
  | .pynone => { response := some "None".data }
  | .other r => { response := some r }

/-- The error outcome built when a handler raises (dispatcher.py, lines 112-117). -/
def commandFailed (msg : Str) : ResponseDict :=
  { response := some ("Command failed: ".data ++ msg), error := true }

/-- Invoking a matched registration and normalizing what comes back
(dispatcher.py, lines 100-117); the handler receives the original query. -/
def invokeHandler {Ctx : Type} (ctx : Ctx) (query : Str) (h : CommandHandler Ctx) : ResponseDict :=
  match h.handler ctx query with
  | .ret v => normalizeResult v
  | .exn msg => commandFailed msg

/-- The scan over registrations (dispatcher.py, lines 87-120): the first
matching registration is invoked and its outcome returned; no outcome makes
the scan continue. -/
def dispatchLoop {Ctx : Type} (ctx : Ctx) (query queryLower : Str) :
    List (CommandHandler Ctx) → Option ResponseDict
  | [] => Option.none
  | h :: hs =>
    if handlerMatches h queryLower then some (invokeHandler ctx query h)
    else dispatchLoop ctx query queryLower hs

/-- `CommandDispatcher.dispatch` (dispatcher.py, lines 64-120). -/
def dispatch {Ctx : Type} (handlers : List (CommandHandler Ctx)) (query : Str) (ctx : Ctx) :
    Option ResponseDict :=
  if query == [] then Option.none
  else dispatchLoop ctx query (pyStrip (pyLower query)) handlers

/-- The registration the scan settles on: the first handler in evaluation
order whose pattern list matches the normalized query. -/
def firstMatch {Ctx : Type} (handlers : List (CommandHandler Ctx)) (queryLower : Str) :
    Option (CommandHandler Ctx) :=
  handlers.find? (fun h => handlerMatches h queryLower)

/-- The arguments of one `@dispatcher.command(...)` registration
(dispatcher.py, lines 34-62). -/
structure RegSpec (Ctx : Type) where
  patterns : List Str
  handler : Ctx → Str → HandlerStep
  priority : Int := 0
  exact_match : Bool := false

/-- The `CommandHandler` built at registration time: patterns lower-cased
(dispatcher.py, line 53). -/
def toHandler {Ctx : Type} (r : RegSpec Ctx) : CommandHandler Ctx :=
  { patterns := r.patterns.map pyLower, handler := r.handler,
    priority := r.priority, exact_match := r.exact_match }

/-- One step of the stable insertion modelling Python's stable
`list.sort(key=lambda h: h.priority, reverse=True)` (dispatcher.py, line 60):
the inserted element goes before the first element whose priority is not
above its own, so an earlier input element stays ahead of equal-priority
later ones. -/
def insertDesc {Ctx : Type} (h : CommandHandler Ctx) :
    List (CommandHandler Ctx) → List (CommandHandler Ctx)
  | [] => [h]
  | g :: gs => if h.priority < g.priority then g :: insertDesc h gs else h :: g :: gs

/-- Python's `sort(key=lambda h: h.priority, reverse=True)` is the stable
descending sort by priority; extensionally it is this insertion sort. -/
def sortDesc {Ctx : Type} (l : List (CommandHandler Ctx)) : List (CommandHandler Ctx) :=
  l.foldr insertDesc []

/-- `CommandDispatcher.command` (dispatcher.py, lines 51-61): append the new
handler, then re-sort the whole list by priority, descending and stable. -/
def registerCommand {Ctx : Type} (handlers : List (CommandHandler Ctx)) (r : RegSpec Ctx) :
    List (CommandHandler Ctx) :=
  sortDesc (handlers ++ [toHandler r])

/-- A whole sequence of registration calls, from the empty registry. -/
def registerAll {Ctx : Type} (regs : List (RegSpec Ctx)) : List (CommandHandler Ctx) :=
  regs.foldl registerCommand []

/-- How importing a skill module behaves: success (with the introspected
command count and the registrations the import performs against the shared
dispatcher), or an exception part-way (registrations already performed
persist; `str(e)` is carried). -/
inductive LoadBehavior (Ctx : Type) where
  | ok (commandCount : Nat) (regs : List (RegSpec Ctx))
  | raises (msg : Str) (regs : List (RegSpec Ctx))

/-- A file in the skills directory: its name (e.g. "web.py") and how
importing it behaves. -/
structure SkillModule (Ctx : Type) where
  fname : Str
  behavior : LoadBehavior Ctx

/-- `Path.stem` for a `*.py` file name. -/
def stemOf (f : Str) : Str := f.take (f.length - 3)

/-- The `SkillInfo` dataclass (skill_loader.py, lines 12-19). -/
structure SkillInfo where
  module_name : Str
  file_path : Str
  command_count : Nat
  is_loaded : Bool
  error : Option Str := Option.none
  deriving DecidableEq

/-- The sentinel `load_skill` stores for a configuration-disabled skill
(skill_loader.py, line 87). -/
def disabledMsg : Str := "Disabled in config".data

/-- Import side effects: the registrations a module performs against the
shared dispatcher while its top level runs. -/
def applyRegs {Ctx : Type} (st : List (CommandHandler Ctx)) (regs : List (RegSpec Ctx)) :
    List (CommandHandler Ctx) :=
  regs.foldl registerCommand st

/-- `SkillLoader.load_skill` (skill_loader.py, lines 66-116), threading the
shared dispatcher registry through the import's side effects. -/
def load_skill {Ctx : Type} (disabled : List Str) (m : SkillModule Ctx)
    (st : List (CommandHandler Ctx)) : List (CommandHandler Ctx) × SkillInfo :=
  let name := stemOf m.fname
  if name ∈ disabled then
    (st, { module_name := "skills.".data ++ name, file_path := m.fname,
           command_count := 0, is_loaded := false, error := some disabledMsg })
  else
    match m.behavior with
    | .ok count regs =>
        (applyRegs st regs,
         { module_name := "skills.".data ++ name, file_path := m.fname,
           command_count := count, is_loaded := true })
    | .raises msg regs =>
        (applyRegs st regs,
         { module_name := "skills.".data ++ name, file_path := m.fname,
           command_count := 0, is_loaded := false, error := some msg })

/-- The `SkillInfo` that `load_skill` reports for a module; it does not
depend on the registry state threaded through the import. -/
def loadInfo {Ctx : Type} (disabled : List Str) (m : SkillModule Ctx) : SkillInfo :=
  (load_skill disabled m []).2

/-- The stem filter of `discover_skills` (skill_loader.py, line 60). -/
def isCandidateStem (stem : Str) : Bool :=
  !(stem == "__init__".data) && !(stem == "base".data) && !(startsWith "_".data stem)

/-- `SkillLoader.discover_skills` (skill_loader.py, lines 46-64): empty when
the directory is missing; otherwise the `*.py` entries whose stem is not
reserved, in directory-enumeration order (`Path.glob` promises no order). -/
def discover_skills {Ctx : Type} (dirExists : Bool) (listing : List (SkillModule Ctx)) :
    List (SkillModule Ctx) :=
  if dirExists then
    listing.filter (fun m => endsWith m.fname ".py".data && isCandidateStem (stemOf m.fname))
  else []

/-- Strict code-point comparison of Python strings. -/
def strLtB : Str → Str → Bool
  | [], [] => false
  | [], _ :: _ => true
  | _ :: _, [] => false
  | a :: as, b :: bs => if a = b then strLtB as bs else decide (a < b)

/-- Code-point `<=` on Python strings (`sorted` on same-directory paths
compares their file names this way). -/
def strLeB (a b : Str) : Bool := strLtB a b || a == b

/-- One step of the stable insertion modelling Python's stable `sorted(...)`
(skill_loader.py, line 152), ascending by file name. -/
def insertAsc {Ctx : Type} (m : SkillModule Ctx) :
    List (SkillModule Ctx) → List (SkillModule Ctx)
  | [] => [m]
  | g :: gs => if strLtB g.fname m.fname then g :: insertAsc m gs else m :: g :: gs

/-- `sorted(skill_files)`: stable ascending sort by file name. -/
def sortByFname {Ctx : Type} (l : List (SkillModule Ctx)) : List (SkillModule Ctx) :=
  l.foldr insertAsc []

/-- Python dict assignment `d[k] = v`: replace in place when the key is
present, append otherwise. -/
def dictInsert (d : List (Str × SkillInfo)) (k : Str) (v : SkillInfo) :
    List (Str × SkillInfo) :=
  if d.any (fun kv => kv.1 == k) then
    d.map (fun kv => if kv.1 == k then (k, v) else kv)
  else d ++ [(k, v)]

/-- The body of the `for skill_file in sorted(skill_files)` loop
(skill_loader.py, lines 152-154): load one module, record its info under its
stem in the `loaded_skills` dict. -/
def loadStep {Ctx : Type} (disabled : List Str)
    (acc : List (CommandHandler Ctx) × List (Str × SkillInfo)) (m : SkillModule Ctx) :
    List (CommandHandler Ctx) × List (Str × SkillInfo) :=
  let r := load_skill disabled m acc.1
  (r.1, dictInsert acc.2 (stemOf m.fname) r.2)

/-- `SkillLoader.load_all_skills` (skill_loader.py, lines 139-158): discover,
then load every candidate in `sorted(...)` order, recording one `SkillInfo`
per stem in the `loaded_skills` dict. -/
def load_all_skills {Ctx : Type} (disabled : List Str) (dirExists : Bool)
    (listing : List (SkillModule Ctx)) (st : List (CommandHandler Ctx)) :
    List (CommandHandler Ctx) × List (Str × SkillInfo) :=
  (sortByFname (discover_skills dirExists listing)).foldl (loadStep disabled) (st, [])

/-- `SkillLoader.get_loaded_skills` (skill_loader.py, lines 181-186). -/
def get_loaded_skills (d : List (Str × SkillInfo)) : List Str :=
  (d.filter (fun kv => kv.2.is_loaded)).map (fun kv => kv.1)

/-- `SkillLoader.get_failed_skills` (skill_loader.py, lines 188-193). -/
def get_failed_skills (d : List (Str × SkillInfo)) : List Str :=
  (d.filter (fun kv => !kv.2.is_loaded && !(kv.2.error == some disabledMsg))).map
    (fun kv => kv.1)

/-- The loaded/failed/disabled buckets of `_log_summary`
(skill_loader.py, lines 160-164), as counts. -/
def summaryCounts (d : List (Str × SkillInfo)) : Nat × Nat × Nat :=
  ((d.filter (fun kv => kv.2.is_loaded)).length,
   (d.filter (fun kv => !kv.2.is_loaded && !(kv.2.error == some disabledMsg))).length,
   (d.filter (fun kv => kv.2.error == some disabledMsg)).length)

/-- A handler over the trivial context that ignores its arguments and always
produces `step`; used to instantiate the theorems below on concrete registries. -/
def constHandler (pats : List Str) (prio : Int) (ex : Bool) (step : HandlerStep) :
    CommandHandler Unit :=
  ⟨pats, fun _ _ => step, prio, ex⟩

/-- A registration request over the trivial context with a constant handler. -/
def constReg (pats : List Str) (prio : Int) (step : HandlerStep) : RegSpec Unit :=
  ⟨pats, fun _ _ => step, prio, false⟩

/-- A handler that echoes the query it is invoked with. -/
def echoHandler (pats : List Str) (prio : Int) : CommandHandler Unit :=
  ⟨pats, fun _ q => .ret (.str q), prio, false⟩

theorem startsWith_iff {needle hay : Str} :
    startsWith needle hay = true ↔ ∃ r, hay = needle ++ r := by
  induction needle generalizing hay with
  | nil => simp [startsWith]
  | cons a as ih =>
    cases hay with
    | nil => simp [startsWith]
    | cons b bs =>
      simp only [startsWith, Bool.and_eq_true, beq_iff_eq, ih, List.cons_append,
        List.cons.injEq]
      constructor
      · rintro ⟨rfl, r, rfl⟩; exact ⟨r, rfl, rfl⟩
      · rintro ⟨r, rfl, rfl⟩; exact ⟨rfl, r, rfl⟩

theorem pyIn_iff {needle hay : Str} :
    pyIn needle hay = true ↔ ∃ l r, hay = l ++ needle ++ r := by
  induction hay with
  | nil =>
    simp only [pyIn, beq_iff_eq]
    constructor
    · rintro rfl; exact ⟨[], [], rfl⟩
    · rintro ⟨l, r, h⟩
      rcases List.append_eq_nil.mp (List.append_eq_nil.mp h.symm).1 with ⟨-, h₂⟩
      exact h₂
  | cons c rest ih =>
    simp only [pyIn, Bool.or_eq_true, startsWith_iff, ih]
    constructor
    · rintro (⟨r, hr⟩ | ⟨l, r, rfl⟩)
      · exact ⟨[], r, by simpa using hr⟩
      · exact ⟨c :: l, r, rfl⟩
    · rintro ⟨l, r, h⟩
      cases l with
      | nil => exact Or.inl ⟨r, by simpa using h⟩
      | cons x xs =>
        simp only [List.cons_append, List.cons.injEq] at h
        exact Or.inr ⟨xs, r, h.2⟩

theorem find?_eq_some_split {α : Type} {p : α → Bool} {l : List α} {a : α}
    (h : l.find? p = some a) :
    ∃ l₁ l₂, l = l₁ ++ a :: l₂ ∧ (∀ x ∈ l₁, p x = false) ∧ p a = true := by
  induction l with
  | nil => simp [List.find?] at h
  | cons b bs ih =>
    by_cases hb : p b = true
    · rw [List.find?_cons_of_pos _ hb] at h
      cases h
      exact ⟨[], bs, rfl, by simp, hb⟩
    · rw [List.find?_cons_of_neg _ (by simpa using hb)] at h
      obtain ⟨l₁, l₂, rfl, hn, ha⟩ := ih h
      exact ⟨b :: l₁, l₂, rfl, by
        intro x hx
        rcases List.mem_cons.mp hx with rfl | hx
        · simpa using hb
        · exact hn x hx, ha⟩

theorem find?_append_of_none {α : Type} {p : α → Bool} {l₁ l₂ : List α}
    (h : ∀ x ∈ l₁, p x = false) :
    (l₁ ++ l₂).find? p = l₂.find? p := by
  induction l₁ with
  | nil => rfl
  | cons b bs ih =>
    rw [List.cons_append, List.find?_cons_of_neg _ (by simpa using h b (by simp))]
    exact ih fun x hx => h x (List.mem_cons_of_mem _ hx)

theorem dispatchLoop_eq_firstMatch {Ctx : Type} (ctx : Ctx) (query queryLower : Str)
    (hs : List (CommandHandler Ctx)) :
    dispatchLoop ctx query queryLower hs =
      (firstMatch hs queryLower).map (invokeHandler ctx query) := by
  induction hs with
  | nil => rfl
  | cons h rest ih =>
    by_cases hm : handlerMatches h queryLower = true
    · simp [dispatchLoop, firstMatch, hm, List.find?_cons_of_pos]
    · rw [show dispatchLoop ctx query queryLower (h :: rest)
            = dispatchLoop ctx query queryLower rest by
          simp [dispatchLoop, hm], ih]
      unfold firstMatch
      rw [List.find?_cons_of_neg _ (by simpa using hm)]

theorem dispatch_eq_firstMatch {Ctx : Type} (ctx : Ctx) {query : Str}
    (hq : query ≠ []) (hs : List (CommandHandler Ctx)) :
    dispatch hs query ctx =
      (firstMatch hs (pyStrip (pyLower query))).map (invokeHandler ctx query) := by
  rw [dispatch, if_neg (by simpa using hq)]
  exact dispatchLoop_eq_firstMatch ctx query _ hs

theorem dispatchLoop_append_no_match {Ctx : Type} (ctx : Ctx) (query queryLower : Str)
    {pre : List (CommandHandler Ctx)} (rest : List (CommandHandler Ctx))
    (h : ∀ g ∈ pre, handlerMatches g queryLower = false) :
    dispatchLoop ctx query queryLower (pre ++ rest) =
      dispatchLoop ctx query queryLower rest := by
  induction pre with
  | nil => rfl
  | cons g gs ih =>
    rw [List.cons_append,
      show dispatchLoop ctx query queryLower (g :: (gs ++ rest))
          = dispatchLoop ctx query queryLower (gs ++ rest) by
        simp [dispatchLoop, h g (by simp)]]
    exact ih fun g hg => h g (List.mem_cons_of_mem _ hg)

theorem insertDesc_perm {Ctx : Type} (h : CommandHandler Ctx) (l : List (CommandHandler Ctx)) :
    (insertDesc h l).Perm (h :: l) := by
  induction l with
  | nil => simp [insertDesc]
  | cons g gs ih =>
    by_cases hg : h.priority < g.priority
    · rw [insertDesc, if_pos hg]
      exact (ih.cons g).trans (List.Perm.swap h g gs)
    · rw [insertDesc, if_neg hg]

theorem sortDesc_perm {Ctx : Type} (l : List (CommandHandler Ctx)) :
    (sortDesc l).Perm l := by
  induction l with
  | nil => simp [sortDesc]
  | cons a t ih => exact (insertDesc_perm a (sortDesc t)).trans (ih.cons a)

theorem pairwise_insertDesc {Ctx : Type} {h : CommandHandler Ctx}
    {l : List (CommandHandler Ctx)}
    (hl : l.Pairwise (fun a b => b.priority ≤ a.priority)) :
    (insertDesc h l).Pairwise (fun a b => b.priority ≤ a.priority) := by
  induction l with
  | nil => simp [insertDesc]
  | cons g gs ih =>
    rcases List.pairwise_cons.mp hl with ⟨hg, hgs⟩
    by_cases hlt : h.priority < g.priority
    · rw [insertDesc, if_pos hlt]
      refine List.pairwise_cons.mpr ⟨?_, ih hgs⟩
      intro b hb
      rcases List.mem_cons.mp ((insertDesc_perm h gs).mem_iff.mp hb) with rfl | hb
      · exact le_of_lt hlt
      · exact hg b hb
    · rw [insertDesc, if_neg hlt]
      refine List.pairwise_cons.mpr ⟨?_, hl⟩
      intro b hb
      rcases List.mem_cons.mp hb with rfl | hb
      · exact le_of_not_lt hlt
      · exact le_trans (hg b hb) (le_of_not_lt hlt)

theorem pairwise_sortDesc {Ctx : Type} (l : List (CommandHandler Ctx)) :
    (sortDesc l).Pairwise (fun a b => b.priority ≤ a.priority) := by
  induction l with
  | nil => simp [sortDesc]
  | cons a t ih => exact pairwise_insertDesc ih

theorem sublist_insertDesc {Ctx : Type} (h : CommandHandler Ctx)
    {c l : List (CommandHandler Ctx)} (hc : c.Sublist l) :
    c.Sublist (insertDesc h l) := by
  induction l generalizing c with
  | nil => rw [List.sublist_nil.mp hc]; exact List.nil_sublist _
  | cons g gs ih =>
    by_cases hlt : h.priority < g.priority
    · rw [insertDesc, if_pos hlt]
      cases hc with
      | cons _ hc => exact (ih hc).cons g
      | cons₂ _ hc => exact (ih hc).cons₂ g
    · rw [insertDesc, if_neg hlt]
      exact hc.cons h

theorem pair_sublist_insertDesc {Ctx : Type} {h v : CommandHandler Ctx}
    {l : List (CommandHandler Ctx)} (hv : v ∈ l) (hle : v.priority ≤ h.priority) :
    [h, v].Sublist (insertDesc h l) := by
  induction l with
  | nil => cases hv
  | cons g gs ih =>
    by_cases hlt : h.priority < g.priority
    · rw [insertDesc, if_pos hlt]
      rcases List.mem_cons.mp hv with rfl | hv
      · exact absurd hlt (not_lt_of_le hle)
      · exact (ih hv).cons g
    · rw [insertDesc, if_neg hlt]
      exact List.Sublist.cons₂ h (List.singleton_sublist.mpr hv)

theorem sortDesc_stable {Ctx : Type} {u v : CommandHandler Ctx}
    {l : List (CommandHandler Ctx)} (hsub : [u, v].Sublist l)
    (hle : v.priority ≤ u.priority) :
    [u, v].Sublist (sortDesc l) := by
  induction l with
  | nil => cases hsub
  | cons a t ih =>
    cases hsub with
    | cons _ hc => exact sublist_insertDesc a (ih hc)
    | cons₂ _ hc =>
      exact pair_sublist_insertDesc ((sortDesc_perm t).mem_iff.mpr
        (List.singleton_sublist.mp hc)) hle

theorem registerAll_append_singleton {Ctx : Type} (regs : List (RegSpec Ctx)) (r : RegSpec Ctx) :
    registerAll (regs ++ [r]) = sortDesc (registerAll regs ++ [toHandler r]) := by
  simp [registerAll, List.foldl_append, registerCommand]

theorem registerAll_perm {Ctx : Type} (regs : List (RegSpec Ctx)) :
    (registerAll regs).Perm (regs.map toHandler) := by
  induction regs using List.reverseRecOn with
  | nil => simp [registerAll]
  | append_singleton regs r ih =>
    rw [registerAll_append_singleton]
    refine (sortDesc_perm _).trans ?_
    simpa using ih.append (List.Perm.refl [toHandler r])

theorem pairwise_registerAll {Ctx : Type} (regs : List (RegSpec Ctx)) :
    (registerAll regs).Pairwise (fun a b => b.priority ≤ a.priority) := by
  induction regs using List.reverseRecOn with
  | nil => simp [registerAll]
  | append_singleton regs r _ =>
    rw [registerAll_append_singleton]
    exact pairwise_sortDesc _

theorem registerAll_stable {Ctx : Type} (regs : List (RegSpec Ctx))
    {i j : Nat} (hi : i < regs.length) (hj : j < regs.length) (hij : i < j)
    (hp : (regs.get ⟨i, hi⟩).priority = (regs.get ⟨j, hj⟩).priority) :
    [toHandler (regs.get ⟨i, hi⟩), toHandler (regs.get ⟨j, hj⟩)].Sublist (registerAll regs) := by
  induction regs using List.reverseRecOn with
  | nil => cases hi
  | append_singleton regs r ih =>
    rw [registerAll_append_singleton]
    by_cases hjlen : j < regs.length
    · have hilen : i < regs.length := lt_trans hij hjlen
      have e₁ : (regs ++ [r]).get ⟨i, hi⟩ = regs.get ⟨i, hilen⟩ :=
        List.getElem_append_left hilen
      have e₂ : (regs ++ [r]).get ⟨j, hj⟩ = regs.get ⟨j, hjlen⟩ :=
        List.getElem_append_left hjlen
      rw [e₁, e₂] at hp ⊢
      exact sortDesc_stable
        ((ih hilen hjlen hp).trans (List.sublist_append_left _ _)) hp.symm.le
    · have hjr : j = regs.length := by
        have hlen : j < regs.length + 1 := by simpa using hj
        omega
      have hilen : i < regs.length := by omega
      have e₁ : (regs ++ [r]).get ⟨i, hi⟩ = regs.get ⟨i, hilen⟩ :=
        List.getElem_append_left hilen
      have e₂ : (regs ++ [r]).get ⟨j, hj⟩ = r := by
        subst hjr
        simp
      rw [e₁, e₂] at hp ⊢
      have hmem : toHandler (regs.get ⟨i, hilen⟩) ∈ registerAll regs :=
        (registerAll_perm regs).mem_iff.mpr
          (List.mem_map_of_mem _ (List.get_mem regs i hilen))
      exact sortDesc_stable
        ((List.singleton_sublist.mpr hmem).append (List.Sublist.refl [toHandler r]))
        hp.symm.le

theorem firstMatch_priority_max {Ctx : Type} {hs : List (CommandHandler Ctx)}
    {queryLower : Str} {g h : CommandHandler Ctx}
    (hsorted : hs.Pairwise (fun a b => b.priority ≤ a.priority))
    (hfm : firstMatch hs queryLower = some g)
    (hmem : h ∈ hs) (hm : handlerMatches h queryLower = true) :
    h.priority ≤ g.priority := by
  induction hs with
  | nil => cases hmem
  | cons a t ih =>
    rcases List.pairwise_cons.mp hsorted with ⟨ha, ht⟩
    by_cases ham : handlerMatches a queryLower = true
    · have hga : g = a := by
        have : firstMatch (a :: t) queryLower = some a := by
          unfold firstMatch
          exact List.find?_cons_of_pos _ ham
        rw [this] at hfm
        exact (Option.some_inj.mp hfm).symm
      subst hga
      rcases List.mem_cons.mp hmem with rfl | hmem
      · exact le_refl _
      · exact ha h hmem
    · have hstep : firstMatch (a :: t) queryLower = firstMatch t queryLower := by
        unfold firstMatch
        exact List.find?_cons_of_neg _ (by simpa using ham)
      rw [hstep] at hfm
      rcases List.mem_cons.mp hmem with rfl | hmem
      · exact absurd hm ham
      · exact ih ht hfm hmem

theorem firstMatch_mem {Ctx : Type} {hs : List (CommandHandler Ctx)}
    {queryLower : Str} {g : CommandHandler Ctx}
    (hfm : firstMatch hs queryLower = some g) :
    g ∈ hs ∧ handlerMatches g queryLower = true := by
  unfold firstMatch at hfm
  exact ⟨List.mem_of_find?_eq_some hfm, by simpa using List.find?_some hfm⟩

theorem load_skill_snd {Ctx : Type} (disabled : List Str) (m : SkillModule Ctx)
    (st : List (CommandHandler Ctx)) :
    (load_skill disabled m st).2 = loadInfo disabled m := by
  by_cases h : stemOf m.fname ∈ disabled
  · simp [loadInfo, load_skill, h]
  · cases hb : m.behavior with
    | ok c regs => simp [loadInfo, load_skill, h, hb]
    | raises msg regs => simp [loadInfo, load_skill, h, hb]

theorem load_skill_disabled_eq {Ctx : Type} {disabled : List Str} {m : SkillModule Ctx}
    (h : stemOf m.fname ∈ disabled) (st : List (CommandHandler Ctx)) :
    load_skill disabled m st =
      (st, { module_name := "skills.".data ++ stemOf m.fname, file_path := m.fname,
             command_count := 0, is_loaded := false, error := some disabledMsg }) := by
  simp [load_skill, h]

theorem loadInfo_disabled {Ctx : Type} {disabled : List Str} {m : SkillModule Ctx}
    (h : stemOf m.fname ∈ disabled) :
    loadInfo disabled m =
      { module_name := "skills.".data ++ stemOf m.fname, file_path := m.fname,
        command_count := 0, is_loaded := false, error := some disabledMsg } := by
  simp [loadInfo, load_skill, h]

theorem loadInfo_ok {Ctx : Type} {disabled : List Str} {m : SkillModule Ctx}
    {c : Nat} {regs : List (RegSpec Ctx)}
    (h : stemOf m.fname ∉ disabled) (hb : m.behavior = .ok c regs) :
    loadInfo disabled m =
      { module_name := "skills.".data ++ stemOf m.fname, file_path := m.fname,
        command_count := c, is_loaded := true } := by
  simp [loadInfo, load_skill, h, hb]

theorem loadInfo_raises {Ctx : Type} {disabled : List Str} {m : SkillModule Ctx}
    {msg : Str} {regs : List (RegSpec Ctx)}
    (h : stemOf m.fname ∉ disabled) (hb : m.behavior = .raises msg regs) :
    loadInfo disabled m =
      { module_name := "skills.".data ++ stemOf m.fname, file_path := m.fname,
        command_count := 0, is_loaded := false, error := some msg } := by
  simp [loadInfo, load_skill, h, hb]

theorem dictInsert_of_fresh {d : List (Str × SkillInfo)} {k : Str} {v : SkillInfo}
    (h : ∀ kv ∈ d, kv.1 ≠ k) : dictInsert d k v = d ++ [(k, v)] := by
  unfold dictInsert
  rw [if_neg]
  intro hc
  obtain ⟨kv, hkv, he⟩ := List.any_eq_true.mp hc
  exact h kv hkv (by simpa using he)

theorem loadFold_snd {Ctx : Type} (disabled : List Str) (ms : List (SkillModule Ctx)) :
    ∀ (st : List (CommandHandler Ctx)) (acc : List (Str × SkillInfo)),
      (∀ m ∈ ms, ∀ kv ∈ acc, kv.1 ≠ stemOf m.fname) →
      (ms.map fun m => stemOf m.fname).Nodup →
      (ms.foldl (loadStep disabled) (st, acc)).2 =
        acc ++ ms.map (fun m => (stemOf m.fname, loadInfo disabled m)) := by
  induction ms with
  | nil => intro st acc _ _; simp
  | cons m ms ih =>
    intro st acc hfresh hnd
    rw [List.foldl_cons,
      show loadStep disabled (st, acc) m
          = ((load_skill disabled m st).1, acc ++ [(stemOf m.fname, loadInfo disabled m)]) by
        simp only [loadStep]
        rw [load_skill_snd, dictInsert_of_fresh (fun kv hkv => hfresh m (by simp) kv hkv)]]
    rw [List.map_cons] at hnd
    have hnd' := List.nodup_cons.mp hnd
    rw [ih _ _ ?_ hnd'.2]
    · simp
    · intro m' hm' kv hkv
      rcases List.mem_append.mp hkv with hkv | hkv
      · exact hfresh m' (List.mem_cons_of_mem _ hm') kv hkv
      · have hk : kv.1 = stemOf m.fname := by
          rcases List.mem_singleton.mp hkv with rfl
          rfl
        rw [hk]
        intro he
        exact hnd'.1 (by rw [he]; exact List.mem_map_of_mem _ hm')

theorem strLtB_trichotomy (a b : Str) : strLtB a b = true ∨ strLtB b a = true ∨ a = b := by
  induction a generalizing b with
  | nil =>
    cases b with
    | nil => exact Or.inr (Or.inr rfl)
    | cons y ys => exact Or.inl rfl
  | cons x xs ih =>
    cases b with
    | nil => exact Or.inr (Or.inl rfl)
    | cons y ys =>
      by_cases hxy : x = y
      · subst hxy
        rcases ih ys with h | h | rfl
        · exact Or.inl (by simp [strLtB, h])
        · exact Or.inr (Or.inl (by simp [strLtB, h]))
        · exact Or.inr (Or.inr rfl)
      · rcases lt_trichotomy x y with h | h | h
        · exact Or.inl (by simp [strLtB, hxy, h])
        · exact absurd h hxy
        · exact Or.inr (Or.inl (by simp [strLtB, Ne.symm hxy, h]))

theorem strLtB_asymm {a b : Str} (h₁ : strLtB a b = true) (h₂ : strLtB b a = true) :
    False := by
  induction a generalizing b with
  | nil =>
    cases b with
    | nil => cases h₁
    | cons y ys => cases h₂
  | cons x xs ih =>
    cases b with
    | nil => cases h₁
    | cons y ys =>
      by_cases hxy : x = y
      · subst hxy
        simp only [strLtB, if_pos rfl] at h₁ h₂
        exact ih h₁ h₂
      · simp only [strLtB, if_neg hxy, if_neg (Ne.symm hxy), decide_eq_true_eq] at h₁ h₂
        exact lt_asymm h₁ h₂

theorem strLtB_trans {a b c : Str} (h₁ : strLtB a b = true) (h₂ : strLtB b c = true) :
    strLtB a c = true := by
  induction a generalizing b c with
  | nil =>
    cases b with
    | nil => cases h₁
    | cons y ys =>
      cases c with
      | nil => cases h₂
      | cons z zs => rfl
  | cons x xs ih =>
    cases b with
    | nil => cases h₁
    | cons y ys =>
      cases c with
      | nil => cases h₂
      | cons z zs =>
        by_cases hxy : x = y <;> by_cases hyz : y = z
        · subst hxy; subst hyz
          simp only [strLtB, if_pos rfl] at h₁ h₂ ⊢
          exact ih h₁ h₂
        · subst hxy
          simp only [strLtB, if_pos rfl, if_neg hyz] at h₁ h₂
          simp [strLtB, hyz, h₂]
        · subst hyz
          simp only [strLtB, if_neg hxy, if_pos rfl] at h₁ h₂
          simp [strLtB, hxy, h₁]
        · simp only [strLtB, if_neg hxy, if_neg hyz, decide_eq_true_eq] at h₁ h₂
          have hxz : x < z := lt_trans h₁ h₂
          simp [strLtB, ne_of_lt hxz, hxz]

theorem strLeB_of_not_lt {a b : Str} (h : strLtB b a = false) : strLeB a b = true := by
  rcases strLtB_trichotomy a b with h' | h' | rfl
  · simp [strLeB, h']
  · rw [h'] at h; cases h
  · simp [strLeB]

theorem strLeB_trans {a b c : Str} (h₁ : strLeB a b = true) (h₂ : strLeB b c = true) :
    strLeB a c = true := by
  rcases Bool.or_eq_true_iff.mp h₁ with h₁ | h₁ <;>
    rcases Bool.or_eq_true_iff.mp h₂ with h₂ | h₂
  · simp [strLeB, strLtB_trans h₁ h₂]
  · rw [beq_iff_eq] at h₂; subst h₂; simp [strLeB, h₁]
  · rw [beq_iff_eq] at h₁; subst h₁; simp [strLeB, h₂]
  · rw [beq_iff_eq] at h₁ h₂; subst h₁; subst h₂; simp [strLeB]

theorem strLeB_antisymm {a b : Str} (h₁ : strLeB a b = true) (h₂ : strLeB b a = true) :
    a = b := by
  rcases Bool.or_eq_true_iff.mp h₁ with h₁ | h₁
  · rcases Bool.or_eq_true_iff.mp h₂ with h₂ | h₂
    · exact (strLtB_asymm h₁ h₂).elim
    · exact (beq_iff_eq.mp h₂).symm
  · exact beq_iff_eq.mp h₁

theorem insertAsc_perm {Ctx : Type} (m : SkillModule Ctx) (l : List (SkillModule Ctx)) :
    (insertAsc m l).Perm (m :: l) := by
  induction l with
  | nil => simp [insertAsc]
  | cons g gs ih =>
    by_cases hg : strLtB g.fname m.fname = true
    · rw [insertAsc, if_pos hg]
      exact (ih.cons g).trans (List.Perm.swap m g gs)
    · rw [insertAsc, if_neg hg]

theorem sortByFname_perm {Ctx : Type} (l : List (SkillModule Ctx)) :
    (sortByFname l).Perm l := by
  induction l with
  | nil => simp [sortByFname]
  | cons a t ih => exact (insertAsc_perm a (sortByFname t)).trans (ih.cons a)

theorem pairwise_insertAsc {Ctx : Type} {m : SkillModule Ctx}
    {l : List (SkillModule Ctx)}
    (hl : l.Pairwise (fun a b => strLeB a.fname b.fname = true)) :
    (insertAsc m l).Pairwise (fun a b => strLeB a.fname b.fname = true) := by
  induction l with
  | nil => simp [insertAsc]
  | cons g gs ih =>
    rcases List.pairwise_cons.mp hl with ⟨hg, hgs⟩
    by_cases hlt : strLtB g.fname m.fname = true
    · rw [insertAsc, if_pos hlt]
      refine List.pairwise_cons.mpr ⟨?_, ih hgs⟩
      intro b hb
      rcases List.mem_cons.mp ((insertAsc_perm m gs).mem_iff.mp hb) with rfl | hb
      · simp [strLeB, hlt]
      · exact hg b hb
    · rw [insertAsc, if_neg hlt]
      have hmg : strLeB m.fname g.fname = true :=
        strLeB_of_not_lt (Bool.eq_false_iff.mpr hlt)
      refine List.pairwise_cons.mpr ⟨?_, hl⟩
      intro b hb
      rcases List.mem_cons.mp hb with rfl | hb
      · exact hmg
      · exact strLeB_trans hmg (hg b hb)

theorem pairwise_sortByFname {Ctx : Type} (l : List (SkillModule Ctx)) :
    (sortByFname l).Pairwise (fun a b => strLeB a.fname b.fname = true) := by
  induction l with
  | nil => simp [sortByFname]
  | cons a t ih => exact pairwise_insertAsc ih

theorem sortByFname_deterministic {Ctx : Type} {l₁ l₂ : List (SkillModule Ctx)}
    (hperm : l₁.Perm l₂) (hnd : (l₁.map (fun m => m.fname)).Nodup) :
    sortByFname l₁ = sortByFname l₂ := by
  refine List.Perm.eq_of_sorted
    ?_ (pairwise_sortByFname l₁) (pairwise_sortByFname l₂) ?_
  · intro a b ha hb hab hba
    have ha' : a ∈ l₁ := (sortByFname_perm l₁).subset ha
    have hb' : b ∈ l₁ := hperm.symm.subset ((sortByFname_perm l₂).subset hb)
    exact List.inj_on_of_nodup_map hnd ha' hb' (strLeB_antisymm hab hba)
  · exact (sortByFname_perm l₁).trans (hperm.trans (sortByFname_perm l₂).symm)

/-- C5: For every registry whose registrations carry non-empty trigger
patterns (the data model's invariant on patterns), dispatching an empty or
whitespace-only query — one whose lower-cased, stripped form is empty —
returns the "no match" result `none`; no registration matches, so the invoke
branch of the scan never runs and no handler is invoked; and the outcome is
not any handled or error outcome. -/
theorem C5_blank_query_no_match {Ctx : Type} (hs : List (CommandHandler Ctx))
    (ctx : Ctx) (q : Str)
    (hblank : pyStrip (pyLower q) = [])
    (hpat : ∀ h ∈ hs, ∀ p ∈ h.patterns, p ≠ []) :
    dispatch hs q ctx = Option.none ∧
    firstMatch hs (pyStrip (pyLower q)) = Option.none ∧
    ∀ d : ResponseDict, dispatch hs q ctx ≠ some d := by
  have hpattern : ∀ (e : Bool) (p : Str), p ≠ [] → patternHit e [] p = false := by
    intro e p hp
    cases p with
    | nil => exact absurd rfl hp
    | cons c cs => cases e <;> rfl
  have hnomatch : ∀ h ∈ hs, handlerMatches h (pyStrip (pyLower q)) = false := by
    intro h hmem
    rw [hblank]
    unfold handlerMatches detectedPattern
    rw [List.find?_eq_none.mpr]
    · rfl
    · intro p hp
      simp [hpattern h.exact_match p (hpat h hmem p hp)]
  have hfm : firstMatch hs (pyStrip (pyLower q)) = Option.none := by
    unfold firstMatch
    rw [List.find?_eq_none.mpr]
    intro h hmem
    simp [hnomatch h hmem]
  have hdisp : dispatch hs q ctx = Option.none := by
    by_cases hq : q = []
    · subst hq; rfl
    · rw [dispatch_eq_firstMatch ctx hq, hfm]; rfl
  exact ⟨hdisp, hfm, fun d hd => by rw [hdisp] at hd; cases hd⟩

/-- Witness for C5 on a concrete registry and a whitespace-only query. -/
theorem C5_witness :
    pyStrip (pyLower " \t ".data) = [] ∧
    dispatch [constHandler ["exit".data] 100 true (.ret (.str "bye".data))]
      " \t ".data () = Option.none :=
  ⟨by decide,
    (C5_blank_query_no_match [constHandler ["exit".data] 100 true (.ret (.str "bye".data))]
      () " \t ".data (by decide) (by decide)).1⟩

/-- C2: If the first pattern-matching registration's handler raises, dispatch
catches the exception (it always returns an outcome rather than propagating),
returns an error-flagged outcome whose response text describes the failure,
and invokes no further handler: the registrations after the faulting one are
irrelevant to the result, even matching lower-priority ones. -/
theorem C2_handler_fault_terminal {Ctx : Type} (ctx : Ctx) (q : Str)
    (pre post : List (CommandHandler Ctx)) (h : CommandHandler Ctx) (msg : Str)
    (hq : q ≠ [])
    (hpre : ∀ g ∈ pre, handlerMatches g (pyStrip (pyLower q)) = false)
    (hm : handlerMatches h (pyStrip (pyLower q)) = true)
    (hexn : h.handler ctx q = .exn msg) :
    dispatch (pre ++ h :: post) q ctx = some (commandFailed msg) ∧
    (commandFailed msg).error = true ∧
    (commandFailed msg).response = some ("Command failed: ".data ++ msg) ∧
    ∀ post' : List (CommandHandler Ctx),
      dispatch (pre ++ h :: post') q ctx = some (commandFailed msg) := by
  have key : ∀ post' : List (CommandHandler Ctx),
      dispatch (pre ++ h :: post') q ctx = some (commandFailed msg) := by
    intro post'
    rw [dispatch, if_neg (by simpa using hq),
      dispatchLoop_append_no_match ctx q _ _ hpre]
    simp [dispatchLoop, hm, invokeHandler, hexn]
  exact ⟨key post, rfl, rfl, key⟩

/-- Witness for C2: a raising handler shadows a matching lower-priority one
and yields the error outcome. -/
theorem C2_witness :
    dispatch [constHandler ["boom".data] 50 false (.exn "kaput".data),
              constHandler ["boom".data] 0 false (.ret (.str "low".data))]
      "boom".data () = some (commandFailed "kaput".data) :=
  (C2_handler_fault_terminal () "boom".data []
    [constHandler ["boom".data] 0 false (.ret (.str "low".data))]
    (constHandler ["boom".data] 50 false (.exn "kaput".data)) "kaput".data
    (by decide) (by decide) (by decide) rfl).1

/-- C1 counterexample: a high-priority registration whose handler always
returns the "not handled" sentinel (Python `None`) is not transparent: with
it, dispatch answers `{"response": "None"}`; without it, the lower-priority
matching handler answers — the two registries are observably different, so
dispatch does not continue scanning past an opt-out. -/
theorem C1_counterexample :
    dispatch [constHandler ["hello".data] 10 false (.ret .pynone),
              constHandler ["hello".data] 0 false (.ret (.str "low".data))]
      "hello".data () = some { response := some "None".data } ∧
    dispatch [constHandler ["hello".data] 0 false (.ret (.str "low".data))]
      "hello".data () = some { response := some "low".data } ∧
    (some { response := some "None".data } : Option ResponseDict)
      ≠ some { response := some "low".data } := by
  refine ⟨by decide, by decide, by decide⟩

/-- C1 amended: the dispatcher has no opt-out path. Whatever value the first
matching registration's handler returns — including the "not handled"
sentinel `None` — dispatch terminates with that registration's normalized
outcome (`None` becomes the response text "None"); the registrations after
it never run, so an always-`None` registration shadows lower-priority
matches instead of behaving as if it did not exist. -/
theorem C1_no_opt_out {Ctx : Type} (ctx : Ctx) (q : Str)
    (pre post : List (CommandHandler Ctx)) (h : CommandHandler Ctx)
    (hq : q ≠ [])
    (hpre : ∀ g ∈ pre, handlerMatches g (pyStrip (pyLower q)) = false)
    (hm : handlerMatches h (pyStrip (pyLower q)) = true) :
    (∀ v : PyVal, h.handler ctx q = .ret v →
      ∀ post' : List (CommandHandler Ctx),
        dispatch (pre ++ h :: post') q ctx = some (normalizeResult v)) ∧
    (h.handler ctx q = .ret .pynone →
      dispatch (pre ++ h :: post) q ctx = some { response := some "None".data }) := by
  have key : ∀ v : PyVal, h.handler ctx q = .ret v →
      ∀ post' : List (CommandHandler Ctx),
        dispatch (pre ++ h :: post') q ctx = some (normalizeResult v) := by
    intro v hv post'
    rw [dispatch, if_neg (by simpa using hq),
      dispatchLoop_append_no_match ctx q _ _ hpre]
    simp [dispatchLoop, hm, invokeHandler, hv]
  exact ⟨key, fun hv => key .pynone hv post⟩

/-- Witness for the amended C1 at a concrete registry: the sentinel-returning
high-priority registration produces `{"response": "None"}`. -/
theorem C1_witness :
    dispatch [constHandler ["hi there".data] 10 false (.ret .pynone),
              constHandler ["hi there".data] 0 false (.ret (.str "low".data))]
      "hi there".data () = some { response := some "None".data } :=
  (C1_no_opt_out () "hi there".data []
    [constHandler ["hi there".data] 0 false (.ret (.str "low".data))]
    (constHandler ["hi there".data] 10 false (.ret .pynone))
    (by decide) (by decide) (by decide)).2 rfl

/-- C8: When the first matching registration's handler returns a concrete
value, the handler is invoked with the original, non-normalized query and
the shared context (the dispatch outcome is determined by `h.handler ctx q`
at the original `q`), and the return value is normalized: a bare string `s`
becomes the outcome `{"response": s}`, a dict passes through unchanged, and
dispatch terminates with that outcome. -/
theorem C8_invocation_and_normalization {Ctx : Type} (ctx : Ctx) (q : Str)
    (hs : List (CommandHandler Ctx)) (h : CommandHandler Ctx) (v : PyVal)
    (hq : q ≠ [])
    (hfm : firstMatch hs (pyStrip (pyLower q)) = some h)
    (hret : h.handler ctx q = .ret v) :
    dispatch hs q ctx = some (normalizeResult v) ∧
    (∀ s : Str, v = .str s →
      normalizeResult v = { response := some s, error := false,
                            action := Option.none, data := Option.none }) ∧
    (∀ d : ResponseDict, v = .dict d → normalizeResult v = d) := by
  refine ⟨?_, ?_, ?_⟩
  · rw [dispatch_eq_firstMatch ctx hq, hfm]
    simp [invokeHandler, hret]
  · rintro s rfl; rfl
  · rintro d rfl; rfl

/-- Witness for C8: an echo handler receives the original query with case,
spacing and punctuation intact, and its string result is wrapped as the
response text. -/
theorem C8_witness :
    dispatch [echoHandler ["hello".data] 0] "  Hello, WORLD! ".data ()
      = some { response := some "  Hello, WORLD! ".data } :=
  (C8_invocation_and_normalization () "  Hello, WORLD! ".data
    [echoHandler ["hello".data] 0] (echoHandler ["hello".data] 0)
    (.str "  Hello, WORLD! ".data) (by decide) rfl rfl).1

/-- C6: Matching compares patterns against the query lower-cased and stripped
once (conjunct 4: dispatch consults exactly `pyStrip (pyLower q)`). In Exact
mode a registration matches iff some pattern equals the normalized query; in
Contains mode iff some pattern is a substring of it; within one registration
the detected pattern is the first matching one in pattern-list order. On the
concrete examples: Exact-mode "exit" matches query "exit" but not
"please exit now", while Contains-mode "exit" matches both. -/
theorem C6_match_modes {Ctx : Type} (h : CommandHandler Ctx) (ql : Str) :
    (h.exact_match = true →
      (handlerMatches h ql = true ↔ ∃ p ∈ h.patterns, ql = p)) ∧
    (h.exact_match = false →
      (handlerMatches h ql = true ↔ ∃ p ∈ h.patterns, ∃ l r, ql = l ++ p ++ r)) ∧
    (∀ p : Str, detectedPattern h ql = some p →
      ∃ l₁ l₂, h.patterns = l₁ ++ p :: l₂ ∧
        (∀ p' ∈ l₁, patternHit h.exact_match ql p' = false) ∧
        patternHit h.exact_match ql p = true) ∧
    (∀ (hs : List (CommandHandler Ctx)) (ctx : Ctx) (q : Str), q ≠ [] →
      dispatch hs q ctx = (firstMatch hs (pyStrip (pyLower q))).map (invokeHandler ctx q)) ∧
    (patternHit true (pyStrip (pyLower "exit".data)) "exit".data = true ∧
     patternHit true (pyStrip (pyLower "please exit now".data)) "exit".data = false ∧
     patternHit false (pyStrip (pyLower "exit".data)) "exit".data = true ∧
     patternHit false (pyStrip (pyLower "please exit now".data)) "exit".data = true) := by
  refine ⟨?_, ?_, ?_, ?_, by decide, by decide, by decide, by decide⟩
  · intro he
    unfold handlerMatches detectedPattern
    rw [List.find?_isSome]
    simp [he, patternHit]
  · intro he
    unfold handlerMatches detectedPattern
    rw [List.find?_isSome]
    simp [he, patternHit, pyIn_iff]
  · intro p hp
    exact find?_eq_some_split hp
  · exact fun hs ctx q hq => dispatch_eq_firstMatch ctx hq hs

/-- Witness for C6 at a concrete exact-mode registration and the concrete
example queries. -/
theorem C6_witness :
    handlerMatches (constHandler ["exit".data] 0 true (.ret .pynone)) "exit".data = true ∧
    patternHit true (pyStrip (pyLower "please exit now".data)) "exit".data = false := by
  constructor
  · exact ((C6_match_modes (constHandler ["exit".data] 0 true (.ret .pynone))
      "exit".data).1 rfl).mpr ⟨"exit".data, by decide, by decide⟩
  · exact (C6_match_modes (constHandler [] 0 false (.ret .pynone))
      []).2.2.2.2.2.1

/-- C4: After any sequence of registrations, the evaluation order consists of
exactly the registered handlers, sorted by descending priority, with equal
priorities kept in registration order (stable ties). Consequently the scan
settles on a handler of maximal matching priority: if two registrations with
priorities P1 > P2 both match, the invoked handler is never the P2 one (and
since no handler can opt out, this holds unconditionally), and it is the P1
one when every other matching handler has strictly lower priority. -/
theorem C4_priority_order {Ctx : Type} (regs : List (RegSpec Ctx)) :
    (registerAll regs).Perm (regs.map toHandler) ∧
    (registerAll regs).Pairwise (fun a b => b.priority ≤ a.priority) ∧
    (∀ (i j : Nat) (hi : i < regs.length) (hj : j < regs.length), i < j →
      (regs.get ⟨i, hi⟩).priority = (regs.get ⟨j, hj⟩).priority →
      [toHandler (regs.get ⟨i, hi⟩), toHandler (regs.get ⟨j, hj⟩)].Sublist
        (registerAll regs)) ∧
    (∀ (ql : Str) (h1 h2 g : CommandHandler Ctx),
      h1 ∈ registerAll regs → h2 ∈ registerAll regs →
      handlerMatches h1 ql = true → handlerMatches h2 ql = true →
      h2.priority < h1.priority →
      firstMatch (registerAll regs) ql = some g →
      h1.priority ≤ g.priority ∧ h2.priority < g.priority ∧ g ≠ h2 ∧
      ((∀ h ∈ registerAll regs, handlerMatches h ql = true →
          h = h1 ∨ h.priority < h1.priority) → g = h1)) := by
  refine ⟨registerAll_perm regs, pairwise_registerAll regs,
    fun i j hi hj hij hp => registerAll_stable regs hi hj hij hp, ?_⟩
  intro ql h1 h2 g hm1 hm2 hq1 hq2 hlt hfm
  have hg1 : h1.priority ≤ g.priority :=
    firstMatch_priority_max (pairwise_registerAll regs) hfm hm1 hq1
  have hg2 : h2.priority < g.priority := lt_of_lt_of_le hlt hg1
  refine ⟨hg1, hg2, ?_, ?_⟩
  · intro he
    rw [he] at hg2
    exact lt_irrefl _ hg2
  · intro huniq
    rcases firstMatch_mem hfm with ⟨hgmem, hgmatch⟩
    rcases huniq g hgmem hgmatch with hEq | hlt'
    · exact hEq
    · exact absurd hg1 (not_le_of_lt hlt')

/-- Witness for C4: a registry with two equal-priority registrations stays
sorted and keeps them in registration order. -/
theorem C4_witness :
    (registerAll [constReg ["a".data] 10 (.ret (.str "A".data)),
                  constReg ["b".data] 10 (.ret (.str "B".data))]).Pairwise
      (fun a b => b.priority ≤ a.priority) ∧
    [toHandler (constReg ["a".data] 10 (.ret (.str "A".data))),
     toHandler (constReg ["b".data] 10 (.ret (.str "B".data)))].Sublist
      (registerAll [constReg ["a".data] 10 (.ret (.str "A".data)),
                    constReg ["b".data] 10 (.ret (.str "B".data))]) := by
  refine ⟨(C4_priority_order _).2.1, ?_⟩
  exact (C4_priority_order [constReg ["a".data] 10 (.ret (.str "A".data)),
    constReg ["b".data] 10 (.ret (.str "B".data))]).2.2.1 0 1 (by decide) (by decide)
    (by decide) (by decide)

/-- C3: `load_all_skills` records exactly one `SkillInfo` per discovered
candidate (the result is pointwise the per-module `loadInfo`, so one
module's outcome never influences another's — failures do not stop the
pass, and the model is a total function, so no exception escapes). A
non-disabled candidate whose import raises is reported not loaded with the
exception's message as its error; a non-disabled candidate whose import
succeeds is reported loaded. -/
theorem C3_load_isolation {Ctx : Type} (disabled : List Str) (dirExists : Bool)
    (listing : List (SkillModule Ctx)) (st : List (CommandHandler Ctx))
    (hnd : ((sortByFname (discover_skills dirExists listing)).map
      (fun m => stemOf m.fname)).Nodup) :
    (load_all_skills disabled dirExists listing st).2
        = (sortByFname (discover_skills dirExists listing)).map
            (fun m => (stemOf m.fname, loadInfo disabled m)) ∧
    (load_all_skills disabled dirExists listing st).2.length
        = (sortByFname (discover_skills dirExists listing)).length ∧
    (∀ (m : SkillModule Ctx) (msg : Str) (regs : List (RegSpec Ctx)),
      stemOf m.fname ∉ disabled → m.behavior = .raises msg regs →
      loadInfo disabled m
        = { module_name := "skills.".data ++ stemOf m.fname, file_path := m.fname,
            command_count := 0, is_loaded := false, error := some msg }) ∧
    (∀ (m : SkillModule Ctx) (c : Nat) (regs : List (RegSpec Ctx)),
      stemOf m.fname ∉ disabled → m.behavior = .ok c regs →
      (loadInfo disabled m).is_loaded = true ∧
      (loadInfo disabled m).error = Option.none) := by
  have hfold := loadFold_snd disabled (sortByFname (discover_skills dirExists listing)) st []
    (by intro m _ kv hkv; cases hkv) hnd
  have h1 : (load_all_skills disabled dirExists listing st).2
      = (sortByFname (discover_skills dirExists listing)).map
          (fun m => (stemOf m.fname, loadInfo disabled m)) := by
    unfold load_all_skills
    simpa using hfold
  refine ⟨h1, by rw [h1]; simp, ?_, ?_⟩
  · exact fun m msg regs hnm hb => loadInfo_raises hnm hb
  · intro m c regs hnm hb
    rw [loadInfo_ok hnm hb]
    exact ⟨rfl, rfl⟩

/-- Witness for C3: three candidates where the second one's import raises —
three results, the first and third loaded, the second failed with the
captured message. -/
theorem C3_witness :
    (load_all_skills ([] : List Str) true
      [(⟨"alpha.py".data, .ok 2 []⟩ : SkillModule Unit),
       ⟨"beta.py".data, .raises "boom".data []⟩,
       ⟨"gamma.py".data, .ok 1 []⟩] []).2
      = [("alpha".data,
          { module_name := "skills.alpha".data, file_path := "alpha.py".data,
            command_count := 2, is_loaded := true }),
         ("beta".data,
          { module_name := "skills.beta".data, file_path := "beta.py".data,
            command_count := 0, is_loaded := false, error := some "boom".data }),
         ("gamma".data,
          { module_name := "skills.gamma".data, file_path := "gamma.py".data,
            command_count := 1, is_loaded := true })] :=
  ((C3_load_isolation ([] : List Str) true
    [(⟨"alpha.py".data, .ok 2 []⟩ : SkillModule Unit),
     ⟨"beta.py".data, .raises "boom".data []⟩,
     ⟨"gamma.py".data, .ok 1 []⟩] [] (by decide)).1).trans (by decide)

/-- C7 counterexample: the disabled-module result's error string is the
literal "Disabled in config", not "disabled by configuration" as the claim
states. -/
theorem C7_counterexample :
    (load_skill ["web".data] (⟨"web.py".data, .ok 3 []⟩ : SkillModule Unit) []).2.error
      = some "Disabled in config".data ∧
    some "Disabled in config".data ≠ some "disabled by configuration".data :=
  ⟨by decide, by decide⟩

/-- C7 amended: a disabled module is never imported or executed — the shared
registry is returned unchanged, and the result does not depend on the
module's load behavior at all — and it is reported not loaded with the fixed
sentinel error "Disabled in config", a result the summary counts as disabled
(not failed) and that `get_failed_skills` and `get_loaded_skills` exclude. -/
theorem C7_disabled_no_import {Ctx : Type} (disabled : List Str) (m : SkillModule Ctx)
    (st : List (CommandHandler Ctx)) (hdis : stemOf m.fname ∈ disabled) :
    load_skill disabled m st = (st, loadInfo disabled m) ∧
    (loadInfo disabled m).is_loaded = false ∧
    (loadInfo disabled m).error = some disabledMsg ∧
    (∀ b : LoadBehavior Ctx,
      load_skill disabled ⟨m.fname, b⟩ st = load_skill disabled m st) ∧
    summaryCounts [(stemOf m.fname, loadInfo disabled m)] = (0, 0, 1) ∧
    get_failed_skills [(stemOf m.fname, loadInfo disabled m)] = [] ∧
    get_loaded_skills [(stemOf m.fname, loadInfo disabled m)] = [] := by
  have hinfo := loadInfo_disabled hdis
  refine ⟨?_, ?_, ?_, ?_, ?_, ?_, ?_⟩
  · rw [load_skill_disabled_eq hdis, hinfo]
  · rw [hinfo]
  · rw [hinfo]
  · intro b
    rw [load_skill_disabled_eq hdis, load_skill_disabled_eq (m := ⟨m.fname, b⟩) hdis]
  · rw [hinfo]
    simp [summaryCounts, disabledMsg]
  · rw [hinfo]
    simp [get_failed_skills, disabledMsg]
  · rw [hinfo]
    simp [get_loaded_skills]

/-- Witness for the amended C7 at a concrete disabled module whose import
would otherwise succeed. -/
theorem C7_witness :
    load_skill ["web".data] (⟨"web.py".data, .ok 3 []⟩ : SkillModule Unit) []
      = ([], loadInfo ["web".data] (⟨"web.py".data, .ok 3 []⟩ : SkillModule Unit)) ∧
    (loadInfo ["web".data] (⟨"web.py".data, .ok 3 []⟩ : SkillModule Unit)).error
      = some disabledMsg := by
  have h := C7_disabled_no_import ["web".data]
    (⟨"web.py".data, .ok 3 []⟩ : SkillModule Unit) [] (by decide)
  exact ⟨h.1, h.2.2.1⟩

/-- C9 counterexample: `discover_skills` itself does not order candidates —
it returns them in directory-enumeration order ("web.py" before "apps.py"
here), which is not lexicographic. -/
theorem C9_counterexample :
    discover_skills true [(⟨"web.py".data, .ok 0 []⟩ : SkillModule Unit),
                          ⟨"apps.py".data, .ok 0 []⟩]
      = [⟨"web.py".data, .ok 0 []⟩, ⟨"apps.py".data, .ok 0 []⟩] ∧
    ¬ ((discover_skills true [(⟨"web.py".data, .ok 0 []⟩ : SkillModule Unit),
          ⟨"apps.py".data, .ok 0 []⟩]).map (fun m => m.fname)).Pairwise
        (fun a b => strLeB a b = true) := by
  exact ⟨rfl, by decide⟩

/-- C9 amended: discovery merely filters — it keeps `*.py` entries whose
stem is not `__init__`, `base` or underscore-prefixed, in directory
enumeration order, and is empty when the directory is missing; the
lexicographic ordering is established by `load_all_skills`, which sorts the
discovered candidates by file name before loading; that load order is
lexicographically sorted, lists exactly the candidates, determines the
recorded results in order, and is deterministic: independent of the
enumeration order of the directory. -/
theorem C9_discovery_and_order {Ctx : Type} (dirExists : Bool)
    (listing : List (SkillModule Ctx)) (disabled : List Str)
    (st : List (CommandHandler Ctx)) :
    discover_skills true listing
      = listing.filter
          (fun m => endsWith m.fname ".py".data && isCandidateStem (stemOf m.fname)) ∧
    discover_skills false listing = ([] : List (SkillModule Ctx)) ∧
    (∀ m ∈ discover_skills dirExists listing,
      endsWith m.fname ".py".data = true ∧
      stemOf m.fname ≠ "__init__".data ∧ stemOf m.fname ≠ "base".data ∧
      startsWith "_".data (stemOf m.fname) = false) ∧
    (sortByFname (discover_skills dirExists listing)).Pairwise
      (fun a b => strLeB a.fname b.fname = true) ∧
    (sortByFname (discover_skills dirExists listing)).Perm
      (discover_skills dirExists listing) ∧
    (((sortByFname (discover_skills dirExists listing)).map
        (fun m => stemOf m.fname)).Nodup →
      (load_all_skills disabled dirExists listing st).2
        = (sortByFname (discover_skills dirExists listing)).map
            (fun m => (stemOf m.fname, loadInfo disabled m))) ∧
    (∀ listing' : List (SkillModule Ctx), listing'.Perm listing →
      ((discover_skills dirExists listing).map (fun m => m.fname)).Nodup →
      sortByFname (discover_skills dirExists listing')
        = sortByFname (discover_skills dirExists listing)) := by
  refine ⟨rfl, rfl, ?_, pairwise_sortByFname _, sortByFname_perm _, ?_, ?_⟩
  · intro m hm
    cases dirExists with
    | false => cases hm
    | true =>
      rcases List.mem_filter.mp hm with ⟨-, hpred⟩
      rcases Bool.and_eq_true_iff.mp hpred with ⟨hpy, hstem⟩
      unfold isCandidateStem at hstem
      rcases Bool.and_eq_true_iff.mp hstem with ⟨hstem', hus⟩
      rcases Bool.and_eq_true_iff.mp hstem' with ⟨hinit, hbase⟩
      refine ⟨hpy, ?_, ?_, ?_⟩
      · simpa using hinit
      · simpa using hbase
      · simpa using hus
  · intro hnd
    have hfold := loadFold_snd disabled (sortByFname (discover_skills dirExists listing))
      st [] (by intro m _ kv hkv; cases hkv) hnd
    unfold load_all_skills
    simpa using hfold
  · intro listing' hperm hnd
    have hp : (discover_skills dirExists listing').Perm (discover_skills dirExists listing) := by
      cases dirExists with
      | false => exact List.Perm.refl _
      | true => exact hperm.filter _
    exact sortByFname_deterministic hp
      ((hp.map (fun m => m.fname)).nodup_iff.mpr hnd)

/-- Witness for the amended C9: a two-candidate directory enumerated in
reverse order still sorts and loads "apps.py" before "web.py". -/
theorem C9_witness :
    sortByFname (discover_skills true
        [(⟨"apps.py".data, .ok 0 []⟩ : SkillModule Unit), ⟨"web.py".data, .ok 0 []⟩])
      = sortByFname (discover_skills true
          [(⟨"web.py".data, .ok 0 []⟩ : SkillModule Unit), ⟨"apps.py".data, .ok 0 []⟩]) ∧
    (load_all_skills ([] : List Str) true
        [(⟨"web.py".data, .ok 0 []⟩ : SkillModule Unit), ⟨"apps.py".data, .ok 0 []⟩] []).2
      = [("apps".data,
          { module_name := "skills.apps".data, file_path := "apps.py".data,
            command_count := 0, is_loaded := true }),
         ("web".data,
          { module_name := "skills.web".data, file_path := "web.py".data,
            command_count := 0, is_loaded := true })] := by
  have h := C9_discovery_and_order true
    ([⟨"web.py".data, .ok 0 []⟩, ⟨"apps.py".data, .ok 0 []⟩] : List (SkillModule Unit))
    ([] : List Str) []
  refine ⟨?_, ?_⟩
  · exact h.2.2.2.2.2.2 [⟨"apps.py".data, .ok 0 []⟩, ⟨"web.py".data, .ok 0 []⟩]
      (List.Perm.swap _ _ _) (by decide)
  · exact (h.2.2.2.2.2.1 (by decide)).trans (by decide)

/-- C10: after a load pass over candidates with distinct stems, the recorded
results are exactly one per candidate; every result is exactly one of
loaded (`is_loaded` with no error), disabled (`error` exactly
"Disabled in config"), or failed (not loaded with any other error);
`get_loaded_skills` and `get_failed_skills` are disjoint, membership in
`get_failed_skills` is decided solely by comparing the error field against
that exact string, and disabled entries appear in neither list. -/
theorem C10_result_partition {Ctx : Type} (disabled : List Str) (dirExists : Bool)
    (listing : List (SkillModule Ctx)) (st : List (CommandHandler Ctx))
    (d : List (Str × SkillInfo))
    (hd : d = (load_all_skills disabled dirExists listing st).2)
    (hnd : ((sortByFname (discover_skills dirExists listing)).map
      (fun m => stemOf m.fname)).Nodup) :
    d.map Prod.fst
      = (sortByFname (discover_skills dirExists listing)).map (fun m => stemOf m.fname) ∧
    (∀ kv ∈ d,
      (kv.2.is_loaded = true ∧ kv.2.error = Option.none) ∨
      (kv.2.is_loaded = false ∧ kv.2.error = some disabledMsg) ∨
      (kv.2.is_loaded = false ∧ ∃ e, kv.2.error = some e ∧ e ≠ disabledMsg)) ∧
    (∀ n, n ∈ get_loaded_skills d → n ∈ get_failed_skills d → False) ∧
    (∀ kv ∈ d, (kv.1 ∈ get_failed_skills d ↔
      kv.2.is_loaded = false ∧ kv.2.error ≠ some disabledMsg)) ∧
    (∀ kv ∈ d, kv.2.error = some disabledMsg →
      kv.1 ∉ get_loaded_skills d ∧ kv.1 ∉ get_failed_skills d) := by
  have hfold := loadFold_snd disabled (sortByFname (discover_skills dirExists listing))
    st [] (by intro m _ kv hkv; cases hkv) hnd
  have h1 : d = (sortByFname (discover_skills dirExists listing)).map
      (fun m => (stemOf m.fname, loadInfo disabled m)) := by
    rw [hd]
    unfold load_all_skills
    simpa using hfold
  have hkeys : d.map Prod.fst
      = (sortByFname (discover_skills dirExists listing)).map (fun m => stemOf m.fname) := by
    rw [h1, List.map_map]
    rfl
  have hkeysnd : (d.map Prod.fst).Nodup := by
    rw [hkeys]; exact hnd
  have huniq : ∀ kv₁ ∈ d, ∀ kv₂ ∈ d, kv₁.1 = kv₂.1 → kv₁ = kv₂ := by
    intro kv₁ h₁ kv₂ h₂ he
    exact List.inj_on_of_nodup_map hkeysnd h₁ h₂ he
  have htri : ∀ kv ∈ d,
      (kv.2.is_loaded = true ∧ kv.2.error = Option.none) ∨
      (kv.2.is_loaded = false ∧ kv.2.error = some disabledMsg) ∨
      (kv.2.is_loaded = false ∧ ∃ e, kv.2.error = some e ∧ e ≠ disabledMsg) := by
    intro kv hkv
    rw [h1] at hkv
    rcases List.mem_map.mp hkv with ⟨m, -, rfl⟩
    by_cases hdis : stemOf m.fname ∈ disabled
    · rw [loadInfo_disabled hdis]
      exact Or.inr (Or.inl ⟨rfl, rfl⟩)
    · cases hb : m.behavior with
      | ok c regs =>
        rw [loadInfo_ok hdis hb]
        exact Or.inl ⟨rfl, rfl⟩
      | raises msg regs =>
        rw [loadInfo_raises hdis hb]
        by_cases hmsg : msg = disabledMsg
        · subst hmsg
          exact Or.inr (Or.inl ⟨rfl, rfl⟩)
        · exact Or.inr (Or.inr ⟨rfl, msg, rfl, hmsg⟩)
  have hfailed : ∀ kv ∈ d, (kv.1 ∈ get_failed_skills d ↔
      kv.2.is_loaded = false ∧ kv.2.error ≠ some disabledMsg) := by
    intro kv hkv
    constructor
    · intro hn
      rcases List.mem_map.mp hn with ⟨kv', hkv', he⟩
      rcases List.mem_filter.mp hkv' with ⟨hkv'd, hp⟩
      rcases Bool.and_eq_true_iff.mp hp with ⟨hl, hne⟩
      cases huniq kv hkv kv' hkv'd he.symm
      refine ⟨by simpa using hl, ?_⟩
      intro hcontra
      rw [hcontra] at hne
      simp at hne
    · intro ⟨hl, hne⟩
      refine List.mem_map.mpr ⟨kv, List.mem_filter.mpr ⟨hkv, ?_⟩, rfl⟩
      rw [Bool.and_eq_true_iff]
      refine ⟨by simp [hl], ?_⟩
      simpa using hne
  refine ⟨hkeys, htri, ?_, hfailed, ?_⟩
  · intro n hload hfail
    rcases List.mem_map.mp hload with ⟨kv₁, hkv₁, he₁⟩
    rcases List.mem_map.mp hfail with ⟨kv₂, hkv₂, he₂⟩
    rcases List.mem_filter.mp hkv₁ with ⟨h₁d, hp₁⟩
    rcases List.mem_filter.mp hkv₂ with ⟨h₂d, hp₂⟩
    cases huniq kv₁ h₁d kv₂ h₂d (by rw [he₁, he₂])
    rcases Bool.and_eq_true_iff.mp hp₂ with ⟨hl₂, -⟩
    rw [hp₁] at hl₂
    cases hl₂
  · intro kv hkv herr
    have hload : kv.2.is_loaded = false := by
      rcases htri kv hkv with ⟨-, he⟩ | ⟨hl, -⟩ | ⟨hl, -⟩
      · rw [herr] at he; cases he
      · exact hl
      · exact hl
    constructor
    · intro hn
      rcases List.mem_map.mp hn with ⟨kv', hkv', he⟩
      rcases List.mem_filter.mp hkv' with ⟨hkv'd, hp⟩
      cases huniq kv hkv kv' hkv'd he.symm
      rw [hload] at hp
      cases hp
    · intro hn
      rcases (hfailed kv hkv).mp hn with ⟨-, hne⟩
      exact hne herr

/-- Witness for C10: a three-candidate pass (one loaded, one failed, one
disabled); the disabled module's stem is in neither the loaded nor the
failed list. -/
theorem C10_witness :
    ("delta".data ∉ get_loaded_skills
      (load_all_skills ["delta".data] true
        [(⟨"alpha.py".data, .ok 2 []⟩ : SkillModule Unit),
         ⟨"beta.py".data, .raises "boom".data []⟩,
         ⟨"delta.py".data, .ok 9 []⟩] []).2) ∧
    ("delta".data ∉ get_failed_skills
      (load_all_skills ["delta".data] true
        [(⟨"alpha.py".data, .ok 2 []⟩ : SkillModule Unit),
         ⟨"beta.py".data, .raises "boom".data []⟩,
         ⟨"delta.py".data, .ok 9 []⟩] []).2) := by
  have h := (C10_result_partition ["delta".data] true
    [(⟨"alpha.py".data, .ok 2 []⟩ : SkillModule Unit),
     ⟨"beta.py".data, .raises "boom".data []⟩,
     ⟨"delta.py".data, .ok 9 []⟩] []
    (load_all_skills ["delta".data] true
      [(⟨"alpha.py".data, .ok 2 []⟩ : SkillModule Unit),
       ⟨"beta.py".data, .raises "boom".data []⟩,
       ⟨"delta.py".data, .ok 9 []⟩] []).2 rfl (by decide)).2.2.2.2
    ("delta".data, loadInfo ["delta".data] (⟨"delta.py".data, .ok 9 []⟩ : SkillModule Unit))
    (by decide) (by decide)
  exact h

end DeskAI
